import Mathlib

/-! go-echo-sample: the user aggregate and its MongoDB repository.

A shallow embedding of `domain/user.go`, `infra/user.go`, `usecase/get_user.go` and
`usecase/error.go`.

* Go strings are Lean strings; MongoDB orders string keys by their bytes, which for
  UTF-8 is the order of the code points, the order of `String` here.
* A Go `time.Time` is an instant, counted in nanoseconds since the Unix epoch. In the
  store `registered_at` is a BSON date: an `int64` count of milliseconds.
* A Go function returning `(value, error)` returns a pair whose second component is
  `none` for a nil error.
* The MongoDB collection is the list of its documents; the driver never lets two documents
  share an `_id` (`WellFormed`). Every driver call takes the failure the round trip
  reports, `none` when the store answers; for `Find` the failure may also be that of a
  later batch of the cursor.
-/

namespace domain

/-- Go `type UserStatus string`: any string is a value of the type. -/
abbrev UserStatus := String

/-- Status of a user in the normal state. -/
def UserStatusNormal : UserStatus := "normal"

/-- Status of a frozen user. -/
def UserStatusFrozen : UserStatus := "frozen"

/-- Go `time.Time`, as nanoseconds since the Unix epoch (UTC). -/
abbrev Time := Int

/-- The user aggregate of `domain/user.go`. -/
structure User where
  UserID : String
  Name : String
  Status : UserStatus
  RegisteredAt : Time
deriving DecidableEq

end domain

namespace mongo

/-- Errors of the MongoDB driver: the sentinel `mongo.ErrNoDocuments`, any other failure,
and a driver error wrapping another one. -/
inductive MongoError where
  | ErrNoDocuments
  | other (msg : String)
  | wrapped (msg : String) (cause : MongoError)
deriving DecidableEq

/-- Go `errors.Is` along the chain of a driver error. -/
def mongoErrorsIs : MongoError → MongoError → Bool
  | .wrapped msg cause, target =>
    decide (MongoError.wrapped msg cause = target) || mongoErrorsIs cause target
  | e, target => decide (e = target)

end mongo

namespace domain

/-- Go `error` values of the repository and the domain: the sentinel `ErrUserNotFound`,
a fresh `errors.New` value, a driver error, and `fmt.Errorf("...: %w", cause)`. -/
inductive Error where
  | ErrUserNotFound
  | new (msg : String)
  | driver (e : mongo.MongoError)
  | wrapf (msg : String) (cause : Error)
deriving DecidableEq

/-- Go `errors.Is(err, target)`: some error of the chain of `err` equals `target`. -/
def errorsIs : Error → Error → Bool
  | .wrapf msg cause, target =>
    decide (Error.wrapf msg cause = target) || errorsIs cause target
  | .driver e, target =>
    match target with
    | .driver t => mongo.mongoErrorsIs e t
    | _ => false
  | e, target => decide (e = target)

/-- Source: `func (user *User) IsFrozen() bool`. -/
def User.IsFrozen (user : User) : Bool :=
  user.Status == UserStatusFrozen

/-- Source: `func (user *User) Freeze()`; the receiver after the call. -/
def User.Freeze (user : User) : User :=
  { user with Status := UserStatusFrozen }

/-- Source: `func (user *User) Unfreeze()`; the receiver after the call. -/
def User.Unfreeze (user : User) : User :=
  { user with Status := UserStatusNormal }

/-- Source: `func (user *User) ChangeName(name string) error`; the receiver after the call
and the returned error. -/
def User.ChangeName (user : User) (name : String) : User × Option Error :=
  if user.IsFrozen then
    (user, some (Error.new "凍結状態のユーザーは名前を変更できません。"))
  else
    ({ user with Name := name }, none)

end domain

namespace mongo

/-- Two's-complement wrap of an integer to Go `int64`. -/
def wrapInt64 (x : Int) : Int :=
  (x + 2 ^ 63) % 2 ^ 64 - 2 ^ 63

/-- Largest Go `int` (64-bit). -/
def MaxInt : Int := 2 ^ 63 - 1

/-- Driver `primitive.NewDateTimeFromTime`: a BSON date is the `int64` count of milliseconds
`t.Unix()*1e3 + t.Nanosecond()/1e6`. -/
def NewDateTimeFromTime (t : domain.Time) : Int :=
  wrapInt64 (t / 1000000)

/-- Driver `DateTime.Time`: the instant of a BSON date. -/
def DateTimeTime (ms : Int) : domain.Time :=
  ms * 1000000

end mongo

namespace infra

open domain mongo

/-- Source: `type userDocument struct`, as stored: `_id`, `name`, `status` and
`registered_at`, the last a BSON date in milliseconds. -/
structure userDocument where
  UserID : String
  Name : String
  Status : UserStatus
  RegisteredAt : Int
deriving DecidableEq

/-- BSON encoding of the `userDocument` literal built from a user (in `Put`). -/
def encodeUser (user : User) : userDocument :=
  { UserID := user.UserID, Name := user.Name, Status := user.Status,
    RegisteredAt := NewDateTimeFromTime user.RegisteredAt }

/-- Decoding a stored document and copying it into a `domain.User` (in `Get` and `List`). -/
def decodeUser (result : userDocument) : User :=
  { UserID := result.UserID, Name := result.Name, Status := result.Status,
    RegisteredAt := DateTimeTime result.RegisteredAt }

/-- The filters the repository sends: `bson.M{}`, `{"_id": k}` and `{"_id": {"$gt": k}}`. -/
inductive Filter where
  | all
  | idEq (k : String)
  | idGt (k : String)

/-- Whether a document satisfies a filter. -/
def Filter.sat : Filter → userDocument → Bool
  | .all, _ => true
  | .idEq k, d => decide (d.UserID = k)
  | .idGt k, d => decide (k < d.UserID)

/-- The `_id` index forbids two documents with the same key. -/
def WellFormed (docs : List userDocument) : Prop :=
  (docs.map userDocument.UserID).Nodup

/-- Sort `{"_id": 1}`: ascending by key. -/
def sortByID (docs : List userDocument) : List userDocument :=
  docs.insertionSort (fun a b => a.UserID ≤ b.UserID)

/-- Driver `Collection.FindOne(...).Decode`: the matching document, `ErrNoDocuments` when
there is none, or the failure of the round trip. -/
def FindOne (fault : Option MongoError) (docs : List userDocument) (filter : Filter) :
    Except MongoError userDocument :=
  match fault with
  | some e => .error e
  | none =>
    match docs.find? filter.sat with
    | some d => .ok d
    | none => .error MongoError.ErrNoDocuments

/-- How a `Find` can fail: the round trip of the call itself, or the fetch of a later
batch, when the cursor has delivered `delivered` documents. -/
inductive FindFault where
  | call (err : MongoError)
  | batch (delivered : Nat) (err : MongoError)

/-- A driver cursor: the documents `cursor.Next` still delivers, and the failure it meets
when it is asked for one more (`none` when the results end there). `cursor.Err()` reports
that failure once a `Next` has met it, not before. -/
structure Cursor where
  rest : List userDocument
  fault : Option MongoError

/-- What `Collection.Find` does with the limit of the options: a negative limit is negated,
in `int64`, and the result asked for in a single batch. Returns the limit sent to the
server and the single-batch flag. -/
def driverLimit (n : Int) : Int × Bool :=
  if n < 0 then (wrapInt64 (-1 * n), true) else (n, false)

/-- Driver `Collection.Find` with sort `{"_id": 1}` and the limit of the options (`none`
when `SetLimit` was not called). The server takes 0 as no limit and refuses a find command
whose limit is negative, which the limit sent is for -2^63 only (the text of the server's
error is not modelled). A later batch that fails cuts the cursor at the documents
delivered before it. -/
def Find (fault : Option FindFault) (docs : List userDocument) (filter : Filter)
    (limit : Option Int) : Except MongoError Cursor :=
  match fault with
  | some (FindFault.call err) => .error err
  | _ =>
    let sorted := sortByID (docs.filter filter.sat)
    let sent : Int :=
      match limit with
      | none => 0
      | some n => (driverLimit n).1
    if sent < 0 then .error (MongoError.other "limit must be non-negative")
    else
      let selected := if sent = 0 then sorted else sorted.take sent.toNat
      match fault with
      | some (FindFault.batch delivered err) =>
        if delivered < selected.length then
          .ok { rest := selected.take delivered, fault := some err }
        else .ok { rest := selected, fault := none }
      | _ => .ok { rest := selected, fault := none }

/-- Update `{"$set": doc}`: every field of the stored document takes the value of `doc`. -/
def applySet (old doc : userDocument) : userDocument :=
  { old with UserID := doc.UserID, Name := doc.Name, Status := doc.Status,
             RegisteredAt := doc.RegisteredAt }

/-- Replace the first document satisfying the filter. -/
def updateFirst (filter : Filter) (doc : userDocument) : List userDocument → List userDocument
  | [] => []
  | d :: ds => if filter.sat d then applySet d doc :: ds else d :: updateFirst filter doc ds

/-- Driver `Collection.UpdateOne` with `SetUpsert(true)` and update `{"$set": doc}`, for a
filter `{"_id": doc.UserID}`: the first matching document is updated, and when none matches
the document is inserted. A failed round trip leaves the collection as it was. -/
def UpdateOne (fault : Option MongoError) (docs : List userDocument) (filter : Filter)
    (doc : userDocument) : List userDocument × Option MongoError :=
  match fault with
  | some e => (docs, some e)
  | none =>
    if docs.any filter.sat then (updateFirst filter doc docs, none)
    else (docs ++ [doc], none)

/-- Driver `Collection.DeleteOne`: the first matching document is removed; none matching
is not an error. A failed round trip leaves the collection as it was. -/
def DeleteOne (fault : Option MongoError) (docs : List userDocument) (filter : Filter) :
    List userDocument × Option MongoError :=
  match fault with
  | some e => (docs, some e)
  | none => (docs.eraseP filter.sat, none)

/-- Source: `func (repo *mongoUserRepository) Get(ctx, userID) (*domain.User, error)`. -/
def mongoUserRepository.Get (fault : Option MongoError) (docs : List userDocument)
    (userID : String) : Option User × Option Error :=
  match FindOne fault docs (Filter.idEq userID) with
  | .error err =>
    if mongoErrorsIs err MongoError.ErrNoDocuments then
      (none, some Error.ErrUserNotFound)
    else
      (none, some (Error.wrapf "ユーザーの取得に失敗しました" (Error.driver err)))
  | .ok result => (some (decodeUser result), none)

/-- Source: `func (repo *mongoUserRepository) Put(ctx, user) error`; the collection after
the call and the returned error. -/
def mongoUserRepository.Put (fault : Option MongoError) (docs : List userDocument)
    (user : User) : List userDocument × Option Error :=
  match UpdateOne fault docs (Filter.idEq user.UserID) (encodeUser user) with
  | (docs', some err) =>
    (docs', some (Error.wrapf "ユーザーの保存に失敗しました" (Error.driver err)))
  | (docs', none) => (docs', none)

/-- Source: `func (repo *mongoUserRepository) Delete(ctx, userID) error`; the collection
after the call and the returned error. -/
def mongoUserRepository.Delete (fault : Option MongoError) (docs : List userDocument)
    (userID : String) : List userDocument × Option Error :=
  match DeleteOne fault docs (Filter.idEq userID) with
  | (docs', some err) =>
    (docs', some (Error.wrapf "ユーザーの削除に失敗しました" (Error.driver err)))
  | (docs', none) => (docs', none)

/-- The loop of `List`: `for i := 0; limit <= 0 || i < limit; i++`, reading the cursor
with `cursor.Next` and appending each decoded document. Returns, at the exit of the loop,
the documents the cursor still delivers, whether the loop ended on a `cursor.Next` that
returned false, the users and `lastEvaluatedKey`. The counter is taken exactly: it stays
below `limit` when `limit > 0` and is not looked at when `limit <= 0`. Stored documents
are typed, so `cursor.Decode` does not fail. -/
def listLoop (limit : Int) (i : Int) (cursor : List userDocument) (users : List User)
    (lastEvaluatedKey : String) : List userDocument × Bool × List User × String :=
  if limit ≤ 0 ∨ i < limit then
    match cursor with
    | [] => ([], true, users, lastEvaluatedKey)
    | result :: rest =>
      listLoop limit (i + 1) rest (users ++ [decodeUser result]) result.UserID
  else
    (cursor, false, users, lastEvaluatedKey)

/-- Source: `func (repo *mongoUserRepository) List(ctx, exclusiveStartKey, limit)
([]domain.User, string, error)`. The limit set is `int64(limit) + 1`, with the wrap of
`int64`. After the loop `cursor.Err()` is checked: it reports the cursor's failure when
the loop ended on a `Next` that met it. Then one more `cursor.Next`, whose failure is not
looked at, decides whether the key is kept. -/
def mongoUserRepository.List (fault : Option FindFault) (docs : List userDocument)
    (exclusiveStartKey : String) (limit : Int) : List User × String × Option Error :=
  let filter := if exclusiveStartKey ≠ "" then Filter.idGt exclusiveStartKey else Filter.all
  let opts : Option Int := if limit > 0 then some (wrapInt64 (limit + 1)) else none
  match Find fault docs filter opts with
  | .error err =>
    ([], "", some (Error.wrapf "ユーザーの取得に失敗しました" (Error.driver err)))
  | .ok cursor =>
    match listLoop limit 0 cursor.rest [] "" with
    | (unread, nextFailed, users, lastEvaluatedKey) =>
      match (if nextFailed then cursor.fault else none) with
      | some err =>
        ([], "", some (Error.wrapf "ユーザーの取得中にエラーが発生しました" (Error.driver err)))
      | none =>
        if unread.isEmpty then (users, "", none) else (users, lastEvaluatedKey, none)

/-- The users a scan still has to deliver after the key `k`, in ascending order of id:
every document when `k` is empty, else the documents whose id is greater than `k`. -/
def remaining (docs : List userDocument) (k : String) : List userDocument :=
  sortByID (docs.filter (fun d => decide (k = "" ∨ k < d.UserID)))

/-- The id of the last document of a page, `dflt` for an empty page. -/
def lastKeyOf (page : List userDocument) (dflt : String) : String :=
  match page.getLast? with
  | some d => d.UserID
  | none => dflt

/-- The caller's scan of `TestList`: start from the empty key, call `List` with page size
`p`, append the page, and go on from the returned key until it is empty. `none` when the
calls allowed by `fuel` are used up; otherwise the users gathered and the error met. -/
def scanPages (docs : List userDocument) (p : Int) :
    Nat → String → List User → Option (List User × Option Error)
  | 0, _, _ => none
  | fuel + 1, exclusiveStartKey, gotAllUsers =>
    match mongoUserRepository.List none docs exclusiveStartKey p with
    | (_, _, some err) => some (gotAllUsers, some err)
    | (gotUsers, lastEvaluatedKey, none) =>
      if lastEvaluatedKey = "" then some (gotAllUsers ++ gotUsers, none)
      else scanPages docs p fuel lastEvaluatedKey (gotAllUsers ++ gotUsers)

end infra

namespace domain

/-- One call of a mutator of `User`: `Freeze()`, `Unfreeze()` or `ChangeName(name)`. -/
inductive Mutator where
  | Freeze
  | Unfreeze
  | ChangeName (name : String)

/-- The receiver after one mutator call; the error `ChangeName` returns is dropped. -/
def Mutator.run (m : Mutator) (user : User) : User :=
  match m with
  | .Freeze => user.Freeze
  | .Unfreeze => user.Unfreeze
  | .ChangeName name => (user.ChangeName name).1

/-- The receiver after a sequence of mutator calls, the first of the list first. -/
def runMutators (ms : List Mutator) (user : User) : User :=
  ms.foldl (fun u m => m.run u) user

end domain

namespace time

/-- The zero `time.Time` of Go, January 1 of year 1, 00:00:00 UTC, in nanoseconds since
the Unix epoch. -/
def zeroTime : domain.Time := -62135596800000000000

/-- Go `Time.IsZero`. -/
def IsZero (t : domain.Time) : Bool :=
  decide (t = zeroTime)

/-- Whether Go `Time.MarshalJSON` accepts the instant: its year (UTC) is in [0, 9999]. -/
def marshals (t : domain.Time) : Bool :=
  decide (-62167219200000000000 ≤ t ∧ t < 253402300800000000000)

end time

namespace validation

/-- The `validation.Errors` of ozzo-validation: the failed fields and their messages. -/
abbrev Errors := List (String × String)

/-- A rule with the message set by `.Error(message)`. -/
structure Rule (α : Type) where
  fails : α → Bool
  message : String

/-- The rule `validation.Required` on a string: an empty value fails. -/
def Required (message : String) : Rule String :=
  { fails := fun s => s == "", message := message }

/-- The rule `validation.Required` on a `time.Time`: the zero time is the empty value. -/
def RequiredTime (message : String) : Rule domain.Time :=
  { fails := fun t => time.IsZero t, message := message }

/-- The rule `validation.RuneLength(min, max)`: an empty value passes; otherwise the
number of runes has to be within the bounds. -/
def RuneLength (min max : Nat) (message : String) : Rule String :=
  { fails := fun s =>
      !(s == "") &&
        (decide (min > 0 ∧ s.length < min) || decide (max > 0 ∧ s.length > max) ||
          decide (min = 0 ∧ max = 0 ∧ s.length > 0)),
    message := message }

/-- The rule `validation.In(values...)`: an empty value passes; otherwise the value has to
be one of `values`. -/
def In (values : List String) (message : String) : Rule String :=
  { fails := fun s => !(s == "") && !(values.contains s), message := message }

/-- The function `validation.Validate` on a value without a `Validate` method: the message
of the first rule that fails. -/
def Validate {α : Type} (value : α) : List (Rule α) → Option String
  | [] => none
  | rule :: rules => if rule.fails value then some rule.message else Validate value rules

/-- The function `validation.ValidateStruct`: each field with its name in the errors and
the outcome of its rules; nil when no field failed. -/
def ValidateStruct (fields : List (String × Option String)) : Option Errors :=
  match fields.filterMap (fun f => f.2.map (fun message => (f.1, message))) with
  | [] => none
  | errs => some errs

/-- The method `Errors.Error()`: the fields sorted by name, each as "field: message",
joined by "; " and closed by a full stop. -/
def ErrorsString (errs : Errors) : String :=
  "; ".intercalate
    ((errs.insertionSort (fun a b => a.1 ≤ b.1)).map (fun e => e.1 ++ ": " ++ e.2)) ++ "."

end validation

namespace usecase

open domain

/-- Source: `type GetUserRequest struct`. -/
structure GetUserRequest where
  UserID : String
deriving DecidableEq

/-- Source: `func (request *GetUserRequest) validate() error`. -/
def GetUserRequest.validate (request : GetUserRequest) : Option validation.Errors :=
  validation.ValidateStruct
    [("UserID", validation.Validate request.UserID
        [validation.Required "ユーザー ID は必須です",
         validation.RuneLength 1 100 "ユーザー ID は 1 文字以上 100 文字以下です"])]

/-- Source: `type GetUserResponse struct`. -/
structure GetUserResponse where
  Name : String
  Status : String
  RegisteredAt : Time
deriving DecidableEq

/-- Source: `func (response *GetUserResponse) validate() error`. -/
def GetUserResponse.validate (response : GetUserResponse) : Option validation.Errors :=
  validation.ValidateStruct
    [("name", validation.Validate response.Name
        [validation.Required "名前は必須です",
         validation.RuneLength 1 100 "名前は 1 文字以上 100 文字以下です"]),
     ("status", validation.Validate response.Status
        [validation.Required "ステータスは必須です",
         validation.In ["normal", "frozen"] "ステータスは normal か frozen です"]),
     ("registeredAt", validation.Validate response.RegisteredAt
        [validation.RequiredTime "登録日時は必須です"])]

/-- The errors `GetUser` hands to an `ErrorResponse`: the error of `c.Bind`, the errors of
the request validation, the error of the repository, and
`fmt.Errorf("%+v: %w", response, err)` for a response that fails its validation. -/
inductive Cause where
  | bind (msg : String)
  | validation (errs : validation.Errors)
  | repository (err : Error)
  | response (response : GetUserResponse) (errs : validation.Errors)
deriving DecidableEq

/-- Source: `type ErrorResponse struct`. -/
structure ErrorResponse where
  Message : String
  Code : String
  Err : Cause
deriving DecidableEq

/-- Source: `func (e *ErrorResponse) Unwrap() error`. -/
def ErrorResponse.Unwrap (e : ErrorResponse) : Cause :=
  e.Err

/-- The `*echo.HTTPError` of `echo.NewHTTPError(code, message)`. -/
structure HTTPError where
  Code : Int
  Message : ErrorResponse
deriving DecidableEq

/-- What the handler uses of an `echo.Context`: the outcome of `c.Bind(&request)`, either
its error or the request it filled. -/
structure Context where
  Bind : Except String GetUserRequest

/-- Source: `func newErrorResponse(c, httpStatusCode, errorCode, errorMessage, err) error`. -/
def newErrorResponse (_c : Context) (httpStatusCode : Int) (errorCode : String)
    (errorMessage : String) (err : Cause) : HTTPError :=
  { Code := httpStatusCode,
    Message := { Code := errorCode, Message := errorMessage, Err := err } }

/-- Source: `func badRequest(c, message, err) error`, with `http.StatusBadRequest` = 400. -/
def badRequest (c : Context) (message : String) (err : Cause) : HTTPError :=
  newErrorResponse c 400 "BadRequest" message err

/-- Source: `func internalServerError(c, message, err) error`, with
`http.StatusInternalServerError` = 500. -/
def internalServerError (c : Context) (message : String) (err : Cause) : HTTPError :=
  newErrorResponse c 500 "InternalServerError" message err

/-- How a call of `GetUser` ends: `c.JSON(code, body)` wrote the response and nil was
returned; an `*echo.HTTPError` was returned; `c.JSON` returned the error of the JSON
encoder; or the handler panicked on a nil user. -/
inductive Result where
  | written (code : Int) (body : GetUserResponse)
  | httpError (e : HTTPError)
  | encodeError
  | nilDereference
deriving DecidableEq

/-- The call `c.JSON(code, response)`: the response is encoded and written, unless
`time.Time.MarshalJSON` refuses `RegisteredAt`. -/
def Context.JSON (_c : Context) (code : Int) (response : GetUserResponse) : Result :=
  if time.marshals response.RegisteredAt then Result.written code response
  else Result.encodeError

/-- The `domain.UserRepository` handed to the use case, as far as `GetUser` uses it: its
`Get`, which answers from the state of the repository and leaves it in a state. -/
structure UserRepository (σ : Type) where
  Get : σ → String → (Option User × Option Error) × σ

/-- Source: `func GetUser(c echo.Context, userRepository domain.UserRepository) error`, on
a repository in the state `s`: how the call ends and the state the repository is left in.
A failed `validate` returns a `validation.Errors`, so the type assertion of the source
holds and the request is answered with `badRequest`. -/
def GetUserOn {σ : Type} (c : Context) (userRepository : UserRepository σ) (s : σ) :
    Result × σ :=
  match c.Bind with
  | .error err =>
    (Result.httpError (badRequest c "リクエストが不正です" (Cause.bind err)), s)
  | .ok request =>
    match request.validate with
    | some errs =>
      (Result.httpError
        (badRequest c ("リクエストが不正です: " ++ validation.ErrorsString errs)
          (Cause.validation errs)), s)
    | none =>
      match userRepository.Get s request.UserID with
      | ((_, some err), s') =>
        if errorsIs err Error.ErrUserNotFound then
          (Result.httpError
            (newErrorResponse c 400 "UserNotFound" "ユーザーが見つかりませんでした"
              (Cause.repository err)), s')
        else
          (Result.httpError
            (internalServerError c "ユーザーの取得に失敗しました" (Cause.repository err)),
           s')
      | ((none, none), s') => (Result.nilDereference, s')
      | ((some user, none), s') =>
        let response : GetUserResponse :=
          { Name := user.Name, Status := user.Status, RegisteredAt := user.RegisteredAt }
        match response.validate with
        | some errs =>
          (Result.httpError
            (internalServerError c "レスポンスのバリデーションに失敗しました"
              (Cause.response response errs)), s')
        | none => (c.JSON 200 response, s')

/-- Source: `type MockUserRepository struct` of `usecase_test.go` with the function `get`;
its state is the list of the user ids `Get` was called with, each call adding its own. -/
def MockUserRepository (get : String → Option User × Option Error) :
    UserRepository (List String) :=
  { Get := fun calls userID => (get userID, calls ++ [userID]) }

/-- The handler `GetUser` on the mock repository that answers with `userRepository` and has
not been called yet: how the call ends and the user ids `Get` was called with. -/
def GetUser (c : Context) (userRepository : String → Option User × Option Error) :
    Result × List String :=
  GetUserOn c (MockUserRepository userRepository) []

end usecase

/-! ## The aggregate -/

section Theorems

open domain mongo infra usecase

/-- C9: for a frozen user and any candidate name, `ChangeName` returns a non-nil error and
the user after the call is the user before it, in all four fields. -/
theorem ChangeName_frozen_rejected (user : User) (name : String)
    (h : user.IsFrozen = true) :
    (user.ChangeName name).2 ≠ none ∧ (user.ChangeName name).1 = user ∧
      (user.ChangeName name).1.Name = user.Name ∧
      (user.ChangeName name).1.UserID = user.UserID ∧
      (user.ChangeName name).1.Status = user.Status ∧
      (user.ChangeName name).1.RegisteredAt = user.RegisteredAt := by
  simp [User.ChangeName, h]

/-- Witness of C9: a frozen user named "oldname" asked to take the name "newname". -/
theorem ChangeName_frozen_rejected_witness :
    (User.mk "U1" "oldname" UserStatusFrozen 0).IsFrozen = true ∧
      ((User.mk "U1" "oldname" UserStatusFrozen 0).ChangeName "newname").2 ≠ none ∧
      ((User.mk "U1" "oldname" UserStatusFrozen 0).ChangeName "newname").1.Name = "oldname" :=
  ⟨by decide,
   (ChangeName_frozen_rejected (User.mk "U1" "oldname" UserStatusFrozen 0) "newname"
      (by decide)).1,
   by decide⟩

/-- C10: for a user that is not frozen and any candidate name, the empty one included,
`ChangeName` returns nil and the user's name is the candidate afterwards. -/
theorem ChangeName_not_frozen_sets_name (user : User) (name : String)
    (h : user.IsFrozen = false) :
    (user.ChangeName name).2 = none ∧ (user.ChangeName name).1.Name = name := by
  simp [User.ChangeName, h]

/-- Witness of C10: a normal user takes the empty name. -/
theorem ChangeName_not_frozen_sets_name_witness :
    (User.mk "U1" "oldname" UserStatusNormal 0).IsFrozen = false ∧
      ((User.mk "U1" "oldname" UserStatusNormal 0).ChangeName "").2 = none ∧
      ((User.mk "U1" "oldname" UserStatusNormal 0).ChangeName "").1.Name = "" :=
  ⟨by decide,
   ChangeName_not_frozen_sets_name (User.mk "U1" "oldname" UserStatusNormal 0) ""
     (by decide)⟩

/-! ## Point lookup, upsert and delete -/

theorem find_none_of_absent (docs : List userDocument) (userID : String)
    (h : ∀ d ∈ docs, d.UserID ≠ userID) :
    docs.find? (Filter.idEq userID).sat = none := by
  rw [List.find?_eq_none]
  intro d hd
  simpa [Filter.sat] using h d hd

/-- C8: when no stored user has the id, `Get` returns a nil user and the error
`ErrUserNotFound` (so `errors.Is(err, ErrUserNotFound)` holds); and when the round trip
fails with an error that is not `mongo.ErrNoDocuments`, `Get` returns a nil user and an
error wrapping the failure for which `errors.Is(err, ErrUserNotFound)` does not hold. -/
theorem Get_not_found_and_store_failure :
    (∀ (docs : List userDocument) (userID : String), (∀ d ∈ docs, d.UserID ≠ userID) →
      (mongoUserRepository.Get none docs userID).1 = none ∧
      ∃ err, (mongoUserRepository.Get none docs userID).2 = some err ∧
        errorsIs err Error.ErrUserNotFound = true) ∧
    (∀ (e : MongoError) (docs : List userDocument) (userID : String),
      mongoErrorsIs e MongoError.ErrNoDocuments = false →
      (mongoUserRepository.Get (some e) docs userID).1 = none ∧
      ∃ err, (mongoUserRepository.Get (some e) docs userID).2 = some err ∧
        errorsIs err Error.ErrUserNotFound = false ∧
        errorsIs err (Error.driver e) = true) := by
  constructor
  · intro docs userID h
    have hf := find_none_of_absent docs userID h
    simp [mongoUserRepository.Get, FindOne, hf, mongoErrorsIs, errorsIs]
  · intro e docs userID he
    have hself : mongoErrorsIs e e = true := by
      cases e <;> simp [mongoErrorsIs]
    simp [mongoUserRepository.Get, FindOne, he, errorsIs, hself]

/-- Witness of C8: `Get` of "U2" on a collection holding only "U1". -/
theorem Get_not_found_and_store_failure_witness :
    (mongoUserRepository.Get none [userDocument.mk "U1" "a" "normal" 0] "U2").1 = none ∧
      ∃ err, (mongoUserRepository.Get none [userDocument.mk "U1" "a" "normal" 0] "U2").2
          = some err ∧ errorsIs err Error.ErrUserNotFound = true :=
  Get_not_found_and_store_failure.1 [userDocument.mk "U1" "a" "normal" 0] "U2"
    (by decide)

theorem absent_after_eraseP (userID : String) :
    ∀ docs : List userDocument, WellFormed docs →
      ∀ d ∈ docs.eraseP (Filter.idEq userID).sat, d.UserID ≠ userID
  | [], _ => by simp
  | a :: docs, hwf => by
    have hnd : a.UserID ∉ docs.map userDocument.UserID ∧ WellFormed docs := by
      simpa [WellFormed] using hwf
    by_cases ha : a.UserID = userID
    · intro d hd
      have hsat : (Filter.idEq userID).sat a = true := by simp [Filter.sat, ha]
      rw [List.eraseP_cons_of_pos hsat] at hd
      intro hdu
      exact hnd.1 (List.mem_map.mpr ⟨d, hd, by rw [hdu, ha]⟩)
    · intro d hd
      have hsat : ¬ (Filter.idEq userID).sat a = true := by simp [Filter.sat, ha]
      rw [List.eraseP_cons_of_neg hsat] at hd
      rcases List.mem_cons.mp hd with rfl | hd
      · exact ha
      · exact absent_after_eraseP userID docs hnd.2 d hd

theorem wellFormed_eraseP (docs : List userDocument) (filter : Filter)
    (hwf : WellFormed docs) : WellFormed (docs.eraseP filter.sat) :=
  List.Nodup.sublist ((List.eraseP_sublist docs).map userDocument.UserID) hwf

/-- C7: on a collection whose keys are distinct, and with the store answering, `Delete`
returns nil whether or not the id is stored; `Get` of the id then returns a nil user and
`ErrUserNotFound`; and a second `Delete` of the id returns nil and leaves the collection
as the first left it. -/
theorem Delete_idempotent (docs : List userDocument) (userID : String)
    (hwf : WellFormed docs) :
    (mongoUserRepository.Delete none docs userID).2 = none ∧
      mongoUserRepository.Get none (mongoUserRepository.Delete none docs userID).1 userID
        = (none, some Error.ErrUserNotFound) ∧
      mongoUserRepository.Delete none (mongoUserRepository.Delete none docs userID).1 userID
        = ((mongoUserRepository.Delete none docs userID).1, none) := by
  have habs := absent_after_eraseP userID docs hwf
  have hf := find_none_of_absent _ userID habs
  have he : (docs.eraseP (Filter.idEq userID).sat).eraseP (Filter.idEq userID).sat
      = docs.eraseP (Filter.idEq userID).sat := by
    apply List.eraseP_of_forall_not
    intro d hd
    simpa [Filter.sat] using habs d hd
  refine ⟨by simp [mongoUserRepository.Delete, DeleteOne], ?_, ?_⟩
  · simp [mongoUserRepository.Delete, DeleteOne, mongoUserRepository.Get, FindOne, hf,
      mongoErrorsIs]
  · simp [mongoUserRepository.Delete, DeleteOne, he]

/-- Witness of C7: deleting "U1" from a collection that holds it. -/
theorem Delete_idempotent_witness :
    WellFormed [userDocument.mk "U1" "a" "normal" 0] ∧
      mongoUserRepository.Get none
          (mongoUserRepository.Delete none [userDocument.mk "U1" "a" "normal" 0] "U1").1 "U1"
        = (none, some Error.ErrUserNotFound) :=
  ⟨by simp [WellFormed],
   (Delete_idempotent [userDocument.mk "U1" "a" "normal" 0] "U1" (by simp [WellFormed])).2.1⟩

theorem applySet_eq (old doc : userDocument) : applySet old doc = doc := by
  cases doc; rfl

theorem find_updateFirst (doc : userDocument) :
    ∀ docs : List userDocument, docs.any (Filter.idEq doc.UserID).sat = true →
      (updateFirst (Filter.idEq doc.UserID) doc docs).find? (Filter.idEq doc.UserID).sat
        = some doc
  | [], h => by simp at h
  | a :: docs, h => by
    by_cases ha : (Filter.idEq doc.UserID).sat a = true
    · simp only [updateFirst, ha, if_true, applySet_eq]
      simp [Filter.sat]
    · have hrest : docs.any (Filter.idEq doc.UserID).sat = true := by
        simpa [ha] using h
      simp only [updateFirst, ha, if_false, Bool.false_eq_true]
      rw [List.find?_cons_of_neg _ ha]
      exact find_updateFirst doc docs hrest

theorem find_after_upsert (docs : List userDocument) (doc : userDocument) :
    (UpdateOne none docs (Filter.idEq doc.UserID) doc).1.find? (Filter.idEq doc.UserID).sat
      = some doc := by
  by_cases h : docs.any (Filter.idEq doc.UserID).sat = true
  · simp only [UpdateOne, h, if_true]
    exact find_updateFirst doc docs h
  · have hnone : docs.find? (Filter.idEq doc.UserID).sat = none := by
      rw [List.find?_eq_none]
      intro d hd hsat
      exact h (List.any_eq_true.mpr ⟨d, hd, hsat⟩)
    simp only [UpdateOne, h, if_false, Bool.false_eq_true]
    simp [List.find?_append, hnone, Filter.sat]

theorem UpdateOne_none (docs : List userDocument) (filter : Filter) (doc : userDocument) :
    UpdateOne none docs filter doc = ((UpdateOne none docs filter doc).1, none) := by
  simp only [UpdateOne]
  split <;> rfl

theorem Put_none (docs : List userDocument) (user : User) :
    mongoUserRepository.Put none docs user
      = ((UpdateOne none docs (Filter.idEq user.UserID) (encodeUser user)).1, none) := by
  unfold mongoUserRepository.Put
  rw [UpdateOne_none]

theorem Put_ok_iff (fault : Option MongoError) (docs : List userDocument) (user : User) :
    (mongoUserRepository.Put fault docs user).2 = none ↔ fault = none := by
  cases fault with
  | none => simp [Put_none]
  | some e => simp [mongoUserRepository.Put, UpdateOne]

theorem Get_after_Put (docs : List userDocument) (user : User) :
    mongoUserRepository.Get none (mongoUserRepository.Put none docs user).1 user.UserID
      = (some (decodeUser (encodeUser user)), none) := by
  have hf := find_after_upsert docs (encodeUser user)
  rw [Put_none]
  simp only [encodeUser] at hf ⊢
  simp [mongoUserRepository.Get, FindOne, hf]

theorem wrapInt64_of_range (x : Int) (hlo : -2 ^ 63 ≤ x) (hhi : x < 2 ^ 63) :
    wrapInt64 x = x := by
  unfold wrapInt64
  norm_num at hlo hhi ⊢
  omega

theorem date_round_trip (t : Int) (hms : t % 1000000 = 0)
    (hlo : -2 ^ 63 ≤ t / 1000000) (hhi : t / 1000000 < 2 ^ 63) :
    DateTimeTime (NewDateTimeFromTime t) = t := by
  unfold DateTimeTime NewDateTimeFromTime
  rw [wrapInt64_of_range _ hlo hhi]
  show (t / 1000000 * 1000000 : Int) = t
  omega

/-- C5, as the code has it: after `Put(u)` succeeds, `Get(u.UserID)` succeeds and returns
a user equal to `u` in `UserID`, `Name` and `Status`, whose `RegisteredAt` is that of `u`
after its pass through the BSON date (milliseconds, `int64`); the returned user equals `u`
in all four fields when `u.RegisteredAt` is a whole number of milliseconds that fits the
BSON date. -/
theorem Put_Get_round_trip (fault : Option MongoError) (docs : List userDocument)
    (u : User) (hput : (mongoUserRepository.Put fault docs u).2 = none) :
    mongoUserRepository.Get none (mongoUserRepository.Put fault docs u).1 u.UserID
        = (some { u with RegisteredAt := DateTimeTime (NewDateTimeFromTime u.RegisteredAt) },
           none) ∧
      (u.RegisteredAt % 1000000 = 0 → -2 ^ 63 ≤ u.RegisteredAt / 1000000 →
        u.RegisteredAt / 1000000 < 2 ^ 63 →
        mongoUserRepository.Get none (mongoUserRepository.Put fault docs u).1 u.UserID
          = (some u, none)) := by
  have hfault : fault = none := (Put_ok_iff fault docs u).mp hput
  subst hfault
  have hget := Get_after_Put docs u
  refine ⟨by rw [hget]; rfl, ?_⟩
  intro hms hlo hhi
  rw [hget]
  have ht := date_round_trip u.RegisteredAt hms hlo hhi
  cases u
  simp only [decodeUser, encodeUser] at ht ⊢
  rw [ht]

/-- Witness of C5: a user registered 1000 s after the epoch, put into an empty collection. -/
theorem Put_Get_round_trip_witness :
    (mongoUserRepository.Put none [] (User.mk "U1" "a" "normal" 1000000000000)).2 = none ∧
      mongoUserRepository.Get none
          (mongoUserRepository.Put none [] (User.mk "U1" "a" "normal" 1000000000000)).1 "U1"
        = (some (User.mk "U1" "a" "normal" 1000000000000), none) :=
  ⟨by decide,
   (Put_Get_round_trip none [] (User.mk "U1" "a" "normal" 1000000000000) (by decide)).2
     (by decide) (by decide) (by decide)⟩

/-- Counterexample to C5 as stated: a user registered 1 ns after the epoch is put into an
empty collection; `Put` and `Get` succeed, and the user `Get` returns has `RegisteredAt` 0,
not 1. -/
theorem Put_Get_round_trip_counterexample :
    (mongoUserRepository.Put none [] (User.mk "U1" "a" "normal" 1)).2 = none ∧
      mongoUserRepository.Get none
          (mongoUserRepository.Put none [] (User.mk "U1" "a" "normal" 1)).1 "U1"
        = (some (User.mk "U1" "a" "normal" 0), none) ∧
      User.mk "U1" "a" "normal" 0 ≠ User.mk "U1" "a" "normal" 1 := by
  decide

/-! ## The page returned by `List` -/

theorem lastKeyOf_cons (d : userDocument) (l : List userDocument) (dflt : String) :
    lastKeyOf (d :: l) dflt = lastKeyOf l d.UserID := by
  cases l with
  | nil => rfl
  | cons a l =>
    simp only [lastKeyOf, List.getLast?_cons_cons]
    rw [List.getLast?_eq_getLast _ (List.cons_ne_nil a l)]

theorem listLoop_unlimited (limit : Int) (hlim : limit ≤ 0) :
    ∀ (cursor : List userDocument) (i : Int) (users : List User) (last : String),
      listLoop limit i cursor users last
        = ([], true, users ++ cursor.map decodeUser, lastKeyOf cursor last)
  | [], i, users, last => by
    unfold listLoop
    simp [hlim, lastKeyOf]
  | d :: rest, i, users, last => by
    unfold listLoop
    simp only [hlim, true_or, if_true]
    rw [listLoop_unlimited limit hlim rest (i + 1), lastKeyOf_cons]
    simp

theorem listLoop_limited (limit : Int) :
    ∀ (cursor : List userDocument) (i : Int) (users : List User) (last : String),
      0 < limit → i ≤ limit →
      listLoop limit i cursor users last
        = (cursor.drop (limit - i).toNat,
           decide (cursor.length < (limit - i).toNat),
           users ++ (cursor.take (limit - i).toNat).map decodeUser,
           lastKeyOf (cursor.take (limit - i).toNat) last)
  | [], i, users, last, hpos, hi => by
    unfold listLoop
    by_cases hlt : i < limit
    · have hc : limit ≤ 0 ∨ i < limit := Or.inr hlt
      have hn : 0 < (limit - i).toNat := by omega
      simp [hc, hn, lastKeyOf]
    · have hc : ¬ (limit ≤ 0 ∨ i < limit) := by omega
      have hz : (limit - i).toNat = 0 := by omega
      simp [hc, hz, lastKeyOf]
  | d :: rest, i, users, last, hpos, hi => by
    unfold listLoop
    by_cases hlt : i < limit
    · have hc : limit ≤ 0 ∨ i < limit := Or.inr hlt
      simp only [hc, if_true]
      rw [listLoop_limited limit rest (i + 1) _ _ hpos (by omega)]
      obtain ⟨n, hn⟩ : ∃ n : Nat, (limit - i).toNat = n + 1 :=
        ⟨(limit - i).toNat - 1, by omega⟩
      have hn' : (limit - (i + 1)).toNat = n := by omega
      rw [hn, hn']
      simp [lastKeyOf_cons]
    · have hc : ¬ (limit ≤ 0 ∨ i < limit) := by omega
      have hz : (limit - i).toNat = 0 := by omega
      simp [hc, hz, lastKeyOf]

theorem filter_start (docs : List userDocument) (k : String) :
    docs.filter (if k ≠ "" then Filter.idGt k else Filter.all).sat
      = docs.filter (fun d => decide (k = "" ∨ k < d.UserID)) := by
  by_cases hk : k = ""
  · simp [hk, Filter.sat]
  · simp only [ne_eq, hk, not_false_eq_true, if_true, false_or]
    rfl

theorem wrapInt64_succ (limit : Int) (hpos : 0 < limit) (hint : limit < MaxInt) :
    wrapInt64 (limit + 1) = limit + 1 := by
  unfold wrapInt64
  unfold MaxInt at hint
  norm_num at hint ⊢
  omega

theorem Find_limited (fault : Option FindFault) (docs : List userDocument) (filter : Filter)
    (limit : Int) (hpos : 0 < limit) (hint : limit < MaxInt)
    (hcall : ∀ err, fault ≠ some (FindFault.call err)) :
    Find fault docs filter (some (wrapInt64 (limit + 1)))
      = match fault with
        | some (FindFault.batch delivered err) =>
          if delivered < ((sortByID (docs.filter filter.sat)).take (limit.toNat + 1)).length
          then .ok { rest := ((sortByID (docs.filter filter.sat)).take (limit.toNat + 1)).take
                       delivered,
                     fault := some err }
          else .ok { rest := (sortByID (docs.filter filter.sat)).take (limit.toNat + 1),
                     fault := none }
        | _ => .ok { rest := (sortByID (docs.filter filter.sat)).take (limit.toNat + 1),
                     fault := none } := by
  rw [wrapInt64_succ limit hpos hint]
  have hneg : ¬ limit + 1 < 0 := by omega
  have hzero : ¬ limit + 1 = 0 := by omega
  have hnat : (limit + 1).toNat = limit.toNat + 1 := by omega
  cases fault with
  | none => simp [Find, driverLimit, hneg, hzero, hnat]
  | some f =>
    cases f with
    | call err => exact absurd rfl (hcall err)
    | batch delivered err => simp [Find, driverLimit, hneg, hzero, hnat]

theorem List_unlimited (docs : List userDocument) (k : String) (limit : Int)
    (hlim : limit ≤ 0) :
    mongoUserRepository.List none docs k limit
      = ((remaining docs k).map decodeUser, "", none) := by
  have hnot : ¬ limit > 0 := by omega
  simp only [mongoUserRepository.List, Find, hnot, if_false, filter_start,
    listLoop_unlimited limit hlim]
  simp [remaining]

theorem List_limited (docs : List userDocument) (k : String) (limit : Int)
    (hpos : 0 < limit) (hint : limit < MaxInt) :
    mongoUserRepository.List none docs k limit
      = (((remaining docs k).take limit.toNat).map decodeUser,
         if (remaining docs k).length ≤ limit.toNat then ""
         else lastKeyOf ((remaining docs k).take limit.toNat) "",
         none) := by
  have hgt : limit > 0 := hpos
  have hfind := Find_limited none docs
    (if k ≠ "" then Filter.idGt k else Filter.all) limit hpos hint (by simp)
  simp only [mongoUserRepository.List, hgt, if_true, hfind, filter_start,
    listLoop_limited limit _ 0 [] "" hpos (le_of_lt hpos)]
  simp only [sub_zero, List.nil_append, List.take_take, List.drop_take]
  have hmin : limit.toNat ⊓ (limit.toNat + 1) = limit.toNat := by omega
  have hone : limit.toNat + 1 - limit.toNat = 1 := by omega
  have hrem : sortByID (docs.filter (fun d => decide (k = "" ∨ k < d.UserID)))
      = remaining docs k := rfl
  rw [hmin, hone, hrem]
  have hempty : ((List.take 1 (List.drop limit.toNat (remaining docs k))).isEmpty = true)
      ↔ (remaining docs k).length ≤ limit.toNat := by
    rw [List.isEmpty_iff, List.take_eq_nil_iff]
    simp
  by_cases hlen : (remaining docs k).length ≤ limit.toNat
  · simp only [if_pos (hempty.mpr hlen), if_pos hlen, ite_self]
  · simp only [if_neg (fun h => hlen (hempty.mp h)), if_neg hlen, ite_self]

theorem sortByID_sorted (docs : List userDocument) :
    (sortByID docs).Sorted (fun a b => a.UserID ≤ b.UserID) :=
  @List.sorted_insertionSort userDocument (fun a b => a.UserID ≤ b.UserID) _
    ⟨fun a b => le_total a.UserID b.UserID⟩ ⟨fun _ _ _ hab hbc => le_trans hab hbc⟩ docs

theorem sortByID_perm (docs : List userDocument) : (sortByID docs).Perm docs :=
  List.perm_insertionSort _ docs

theorem remaining_perm (docs : List userDocument) (k : String) :
    (remaining docs k).Perm (docs.filter (fun d => decide (k = "" ∨ k < d.UserID))) :=
  sortByID_perm _

/-- Below the largest `int`: for 0 < limit < `math.MaxInt64` and any key `k`, with the
store answering, the page `List(k, limit)` returns is the first `min(limit, r)` of the `r`
users that remain after `k` (all users when `k` is empty, else those whose id is greater
than `k`) taken in ascending order of id; the page never holds more than `limit` users. -/
theorem List_page_first_limit (docs : List userDocument) (k : String) (limit : Int)
    (hpos : 0 < limit) (hint : limit < MaxInt) :
    (mongoUserRepository.List none docs k limit).2.2 = none ∧
      (mongoUserRepository.List none docs k limit).1
        = ((remaining docs k).take (min limit.toNat (remaining docs k).length)).map
            decodeUser ∧
      ((mongoUserRepository.List none docs k limit).1.length : Int) ≤ limit ∧
      (remaining docs k).Sorted (fun a b => a.UserID ≤ b.UserID) ∧
      (remaining docs k).Perm (docs.filter (fun d => decide (k = "" ∨ k < d.UserID))) := by
  rw [List_limited docs k limit hpos hint]
  refine ⟨rfl, ?_, ?_, sortByID_sorted _, remaining_perm docs k⟩
  · show List.map decodeUser (List.take limit.toNat (remaining docs k)) = _
    congr 1
    rcases Nat.le_total limit.toNat (remaining docs k).length with h | h
    · rw [Nat.min_eq_left h]
    · rw [Nat.min_eq_right h, List.take_of_length_le h, List.take_of_length_le le_rfl]
  · simp only [List.length_map, List.length_take]
    omega

/-- A page of size 1 from a collection of one user. -/
theorem List_page_first_limit_witness :
    (mongoUserRepository.List none [userDocument.mk "U1" "a" "normal" 0] "" 1).2.2 = none ∧
      ((mongoUserRepository.List none [userDocument.mk "U1" "a" "normal" 0] "" 1).1.length
        : Int) ≤ 1 :=
  have h := List_page_first_limit [userDocument.mk "U1" "a" "normal" 0] "" 1
    (by decide) (by decide)
  ⟨h.1, h.2.2.1⟩

/-- Below the largest `int`: for 0 < limit < `math.MaxInt64` and any key `k`, with the
store answering: when more than `limit` users remain after `k`, the `lastEvaluatedKey` of
`List(k, limit)` is the id of the last user of the returned page; when at most `limit`
remain, it is the empty string and the page holds all of them. -/
theorem List_lastEvaluatedKey (docs : List userDocument) (k : String) (limit : Int)
    (hpos : 0 < limit) (hint : limit < MaxInt) :
    (limit < ((remaining docs k).length : Int) →
      ∃ u, (mongoUserRepository.List none docs k limit).1.getLast? = some u ∧
        (mongoUserRepository.List none docs k limit).2.1 = u.UserID) ∧
    (((remaining docs k).length : Int) ≤ limit →
      (mongoUserRepository.List none docs k limit).2.1 = "" ∧
      (mongoUserRepository.List none docs k limit).1 = (remaining docs k).map decodeUser) := by
  rw [List_limited docs k limit hpos hint]
  constructor
  · intro hmore
    have hlen : ¬ (remaining docs k).length ≤ limit.toNat := by omega
    have hne : (remaining docs k).take limit.toNat ≠ [] := by
      intro h
      rw [List.take_eq_nil_iff] at h
      rcases h with h | h
      · omega
      · rw [h] at hlen
        simp at hlen
    refine ⟨decodeUser (((remaining docs k).take limit.toNat).getLast hne), ?_, ?_⟩
    · simp only [List.getLast?_map, List.getLast?_eq_getLast _ hne, Option.map_some']
    · simp only [if_neg hlen, lastKeyOf, List.getLast?_eq_getLast _ hne, decodeUser]
  · intro hfew
    have hlen : (remaining docs k).length ≤ limit.toNat := by omega
    simp only [if_pos hlen, List.take_of_length_le hlen, and_self]

/-- With limit 1, one stored user gives an empty key and the whole collection as the
page; two stored users give the id of the last user of the page. -/
theorem List_lastEvaluatedKey_witness :
    ((mongoUserRepository.List none [userDocument.mk "U1" "a" "normal" 0] "" 1).2.1 = "" ∧
      (mongoUserRepository.List none [userDocument.mk "U1" "a" "normal" 0] "" 1).1
        = [User.mk "U1" "a" "normal" 0]) ∧
    ∃ u, (mongoUserRepository.List none
            [userDocument.mk "U1" "a" "normal" 0, userDocument.mk "U2" "b" "normal" 0]
            "" 1).1.getLast? = some u ∧
      (mongoUserRepository.List none
          [userDocument.mk "U1" "a" "normal" 0, userDocument.mk "U2" "b" "normal" 0]
          "" 1).2.1 = u.UserID :=
  ⟨(List_lastEvaluatedKey [userDocument.mk "U1" "a" "normal" 0] "" 1
      (by decide) (by decide)).2 (by decide),
   (List_lastEvaluatedKey
      [userDocument.mk "U1" "a" "normal" 0, userDocument.mk "U2" "b" "normal" 0] "" 1
      (by decide) (by decide)).1
      (by rw [(remaining_perm _ _).length_eq]; decide)⟩

theorem List_at_MaxInt (docs : List userDocument) (k : String) :
    mongoUserRepository.List none docs k MaxInt
      = ([], "",
         some (Error.wrapf "ユーザーの取得に失敗しました"
           (Error.driver (MongoError.other "limit must be non-negative")))) := by
  have hpos : MaxInt > 0 := by decide
  have hwrap : wrapInt64 (MaxInt + 1) = -2 ^ 63 := by decide
  have hsent : (driverLimit (-2 ^ 63)).1 = -2 ^ 63 := by decide
  have hneg : (-2 ^ 63 : Int) < 0 := by decide
  simp only [mongoUserRepository.List, hpos, if_true, hwrap, Find, hsent, hneg]

/-- C2, the code at the failing input `limit = math.MaxInt64`: `int64(limit) + 1` wraps to
-2^63, the driver's negation of it in `int64` is -2^63 again, so the limit sent is negative
and not `limit + 1`; with the store answering, `List(k, math.MaxInt64)` returns no page
and an error, for every collection and key, where the claim has the first
`min(limit, r)` users. -/
theorem List_MaxInt_limit_wraps :
    wrapInt64 (MaxInt + 1) = -2 ^ 63 ∧ driverLimit (-2 ^ 63) = (-2 ^ 63, true) ∧
      ∀ (docs : List userDocument) (k : String),
        (mongoUserRepository.List none docs k MaxInt).1 = [] ∧
        (mongoUserRepository.List none docs k MaxInt).2.2
          = some (Error.wrapf "ユーザーの取得に失敗しました"
              (Error.driver (MongoError.other "limit must be non-negative"))) := by
  refine ⟨by decide, by decide, ?_⟩
  intro docs k
  rw [List_at_MaxInt docs k]
  exact ⟨rfl, rfl⟩

theorem List_limited_batch (docs : List userDocument) (k : String) (limit : Int)
    (err : MongoError) (hpos : 0 < limit) (hint : limit < MaxInt)
    (hmore : limit.toNat < (remaining docs k).length) :
    mongoUserRepository.List (some (FindFault.batch limit.toNat err)) docs k limit
      = (((remaining docs k).take limit.toNat).map decodeUser, "", none) := by
  have hgt : limit > 0 := hpos
  have hfind := Find_limited (some (FindFault.batch limit.toNat err)) docs
    (if k ≠ "" then Filter.idGt k else Filter.all) limit hpos hint (by simp)
  have hrem : sortByID (docs.filter (fun d => decide (k = "" ∨ k < d.UserID)))
      = remaining docs k := rfl
  have hlen : limit.toNat < ((remaining docs k).take (limit.toNat + 1)).length := by
    rw [List.length_take]
    omega
  simp only [filter_start, hrem, hlen, if_true] at hfind
  simp only [mongoUserRepository.List, hgt, if_true, hfind,
    listLoop_limited limit _ 0 [] "" hpos (le_of_lt hpos)]
  simp only [sub_zero, List.nil_append, List.take_take, List.drop_take, List.length_take]
  have hmin : limit.toNat ⊓ (limit.toNat + 1) = limit.toNat := by omega
  have hmin2 : limit.toNat ⊓ (limit.toNat ⊓ (limit.toNat + 1)) = limit.toNat := by omega
  have hnot : ¬ (limit.toNat ⊓ (remaining docs k).length < limit.toNat) := by omega
  simp [hmin, hmin2, hnot]

/-- C3, the code at two failing inputs. With one stored user and `limit = math.MaxInt64`
(the wrap of C2) `List` returns an error and no page, where the claim has the page with
that user. With two stored users, limit 1 and the fetch of the batch after the first
document failing, the `cursor.Next` after the loop returns false unchecked: `List` returns
the first user, a nil error and the empty key, where the claim has the key "U1". -/
theorem List_lastEvaluatedKey_lost :
    mongoUserRepository.List none [userDocument.mk "U1" "a" "normal" 0] "" MaxInt
        = ([], "",
           some (Error.wrapf "ユーザーの取得に失敗しました"
             (Error.driver (MongoError.other "limit must be non-negative")))) ∧
      mongoUserRepository.List (some (FindFault.batch 1 (MongoError.other "timeout")))
          [userDocument.mk "U1" "a" "normal" 0, userDocument.mk "U2" "b" "normal" 0] "" 1
        = ([User.mk "U1" "a" "normal" 0], "", none) := by
  refine ⟨List_at_MaxInt _ _, ?_⟩
  have hle : ("U1" : String) ≤ "U2" := by
    rw [← not_lt, String.lt_iff_toList_lt]
    decide
  have hrem : remaining
      [userDocument.mk "U1" "a" "normal" 0, userDocument.mk "U2" "b" "normal" 0] ""
      = [userDocument.mk "U1" "a" "normal" 0, userDocument.mk "U2" "b" "normal" 0] := by
    simp [remaining, sortByID, List.insertionSort, List.orderedInsert, hle]
  have h := List_limited_batch
    [userDocument.mk "U1" "a" "normal" 0, userDocument.mk "U2" "b" "normal" 0] "" 1
    (MongoError.other "timeout") (by decide) (by decide) (by rw [hrem]; decide)
  rw [hrem] at h
  exact h

/-- C4: for a limit ≤ 0, with the store answering, `List("", limit)` returns every stored
user, each once, in a single page with an empty `lastEvaluatedKey` (on the empty collection
an empty page); and for a non-empty key `k`, `List(k, limit)` returns every user whose id
is greater than `k`, each once, with an empty `lastEvaluatedKey`. -/
theorem List_unlimited_returns_all (docs : List userDocument) (k : String) (limit : Int)
    (hlim : limit ≤ 0) (hk : k ≠ "") :
    (mongoUserRepository.List none docs "" limit).1.Perm (docs.map decodeUser) ∧
      (mongoUserRepository.List none docs "" limit).2 = ("", none) ∧
      mongoUserRepository.List none [] "" limit = ([], "", none) ∧
      (mongoUserRepository.List none docs k limit).1.Perm
        ((docs.filter (fun d => decide (k < d.UserID))).map decodeUser) ∧
      (mongoUserRepository.List none docs k limit).2 = ("", none) := by
  rw [List_unlimited docs "" limit hlim, List_unlimited docs k limit hlim,
    List_unlimited [] "" limit hlim]
  refine ⟨?_, rfl, rfl, ?_, rfl⟩
  · have h := (remaining_perm docs "").map decodeUser
    simpa using h
  · have h := (remaining_perm docs k).map decodeUser
    simpa [hk] using h

/-- Witness of C4: limit -1 on a collection of one user, and the key "U0". -/
theorem List_unlimited_returns_all_witness :
    (mongoUserRepository.List none [userDocument.mk "U1" "a" "normal" 0] "" (-1)).1.Perm
        ([userDocument.mk "U1" "a" "normal" 0].map decodeUser) ∧
      (mongoUserRepository.List none [userDocument.mk "U1" "a" "normal" 0] "" (-1)).2
        = ("", none) :=
  have h := List_unlimited_returns_all [userDocument.mk "U1" "a" "normal" 0] "U0" (-1)
    (by decide) (by decide)
  ⟨h.1, h.2.1⟩

/-! ## Upsert -/

theorem updateFirst_filter_ne (doc : userDocument) :
    ∀ docs : List userDocument,
      (updateFirst (Filter.idEq doc.UserID) doc docs).filter
          (fun d => decide (d.UserID ≠ doc.UserID))
        = docs.filter (fun d => decide (d.UserID ≠ doc.UserID))
  | [] => rfl
  | a :: docs => by
    by_cases ha : a.UserID = doc.UserID
    · simp [updateFirst, Filter.sat, ha, applySet_eq]
    · have ih := updateFirst_filter_ne doc docs
      simp only [updateFirst, Filter.sat, ha, decide_False, Bool.false_eq_true, if_false]
      rw [List.filter_cons, List.filter_cons, ih]

theorem filter_eq_nil_of_absent (k : String) (docs : List userDocument)
    (h : k ∉ docs.map userDocument.UserID) :
    docs.filter (fun d => decide (d.UserID = k)) = [] := by
  rw [List.filter_eq_nil_iff]
  intro d hd hdk
  exact h (List.mem_map.mpr ⟨d, hd, by simpa using hdk⟩)

theorem updateFirst_filter_eq (doc : userDocument) :
    ∀ docs : List userDocument, WellFormed docs →
      docs.any (Filter.idEq doc.UserID).sat = true →
      (updateFirst (Filter.idEq doc.UserID) doc docs).filter
          (fun d => decide (d.UserID = doc.UserID)) = [doc]
  | [], _, h => by simp at h
  | a :: docs, hwf, h => by
    have hnd : a.UserID ∉ docs.map userDocument.UserID ∧ WellFormed docs := by
      simpa [WellFormed] using hwf
    by_cases ha : a.UserID = doc.UserID
    · have hnil := filter_eq_nil_of_absent doc.UserID docs (ha ▸ hnd.1)
      simp [updateFirst, Filter.sat, ha, applySet_eq, hnil]
    · have hrest : docs.any (Filter.idEq doc.UserID).sat = true := by
        simpa [Filter.sat, ha] using h
      have ih := updateFirst_filter_eq doc docs hnd.2 hrest
      simp only [updateFirst, Filter.sat, ha, decide_False, Bool.false_eq_true, if_false]
      rw [List.filter_cons]
      simp [ha, ih]

theorem updateFirst_ids (doc : userDocument) :
    ∀ docs : List userDocument,
      (updateFirst (Filter.idEq doc.UserID) doc docs).map userDocument.UserID
        = docs.map userDocument.UserID
  | [] => rfl
  | a :: docs => by
    by_cases ha : a.UserID = doc.UserID
    · simp [updateFirst, Filter.sat, ha, applySet_eq]
    · simp [updateFirst, Filter.sat, ha, updateFirst_ids doc docs]

theorem absent_of_not_any (docs : List userDocument) (k : String)
    (h : ¬ docs.any (Filter.idEq k).sat = true) : k ∉ docs.map userDocument.UserID := by
  intro hmem
  obtain ⟨d, hd, hdk⟩ := List.mem_map.mp hmem
  exact h (List.any_eq_true.mpr ⟨d, hd, by simp [Filter.sat, hdk]⟩)

theorem upsert_filter_eq (docs : List userDocument) (doc : userDocument)
    (hwf : WellFormed docs) :
    (UpdateOne none docs (Filter.idEq doc.UserID) doc).1.filter
        (fun d => decide (d.UserID = doc.UserID)) = [doc] := by
  by_cases h : docs.any (Filter.idEq doc.UserID).sat = true
  · simp only [UpdateOne, h, if_true]
    exact updateFirst_filter_eq doc docs hwf h
  · have hnil := filter_eq_nil_of_absent doc.UserID docs (absent_of_not_any docs _ h)
    simp only [UpdateOne, h, if_false, Bool.false_eq_true]
    simp [List.filter_append, hnil]

theorem upsert_filter_ne (docs : List userDocument) (doc : userDocument) :
    (UpdateOne none docs (Filter.idEq doc.UserID) doc).1.filter
        (fun d => decide (d.UserID ≠ doc.UserID))
      = docs.filter (fun d => decide (d.UserID ≠ doc.UserID)) := by
  by_cases h : docs.any (Filter.idEq doc.UserID).sat = true
  · simp only [UpdateOne, h, if_true]
    exact updateFirst_filter_ne doc docs
  · simp only [UpdateOne, h, if_false, Bool.false_eq_true]
    simp [List.filter_append]

theorem wellFormed_upsert (docs : List userDocument) (doc : userDocument)
    (hwf : WellFormed docs) :
    WellFormed (UpdateOne none docs (Filter.idEq doc.UserID) doc).1 := by
  by_cases h : docs.any (Filter.idEq doc.UserID).sat = true
  · simp only [UpdateOne, h, if_true, WellFormed, updateFirst_ids]
    exact hwf
  · have habs := absent_of_not_any docs _ h
    simp only [UpdateOne, h, if_false, Bool.false_eq_true, WellFormed, List.map_append,
      List.map_cons, List.map_nil]
    rw [List.nodup_append]
    refine ⟨hwf, List.nodup_singleton _, ?_⟩
    intro x hx hx'
    rw [List.mem_singleton] at hx'
    exact habs (hx' ▸ hx)

/-- The collection operations keep the keys distinct: the empty collection is well
formed, and `Put` and `Delete` take a well-formed collection to a well-formed one. -/
theorem wellFormed_invariant :
    WellFormed [] ∧
      (∀ fault docs user, WellFormed docs →
        WellFormed (mongoUserRepository.Put fault docs user).1) ∧
      (∀ fault docs userID, WellFormed docs →
        WellFormed (mongoUserRepository.Delete fault docs userID).1) := by
  refine ⟨List.nodup_nil, ?_, ?_⟩
  · intro fault docs user hwf
    cases fault with
    | none =>
      rw [Put_none]
      exact wellFormed_upsert docs (encodeUser user) hwf
    | some e => simpa [mongoUserRepository.Put, UpdateOne] using hwf
  · intro fault docs userID hwf
    cases fault with
    | none =>
      simpa [mongoUserRepository.Delete, DeleteOne] using wellFormed_eraseP docs _ hwf
    | some e => simpa [mongoUserRepository.Delete, DeleteOne] using hwf

theorem decode_encode (u : User) :
    decodeUser (encodeUser u)
      = { u with RegisteredAt := DateTimeTime (NewDateTimeFromTime u.RegisteredAt) } := rfl

theorem decode_encode_of_whole_ms (u : User) (hms : u.RegisteredAt % 1000000 = 0)
    (hlo : -2 ^ 63 ≤ u.RegisteredAt / 1000000) (hhi : u.RegisteredAt / 1000000 < 2 ^ 63) :
    decodeUser (encodeUser u) = u := by
  have ht := date_round_trip u.RegisteredAt hms hlo hhi
  cases u
  simp only [decodeUser, encodeUser] at ht ⊢
  rw [ht]

theorem page_filter_singleton (docs : List userDocument) (k : String) (doc : userDocument)
    (h : docs.filter (fun d => decide (d.UserID = k)) = [doc]) :
    ((remaining docs "").map decodeUser).filter (fun x => decide (x.UserID = k))
      = [decodeUser doc] := by
  have hrem := remaining_perm docs ""
  simp only [true_or, decide_True, List.filter_true] at hrem
  have hperm := (hrem.map decodeUser).filter (fun x => decide (x.UserID = k))
  have hmap : (docs.map decodeUser).filter (fun x => decide (x.UserID = k))
      = (docs.filter (fun d => decide (d.UserID = k))).map decodeUser := by
    rw [List.filter_map]
    rfl
  rw [hmap, h] at hperm
  exact List.perm_singleton.mp hperm

/-- C6, as the code has it: on a collection whose keys are distinct, and with the store
answering, after `Put(u)` and then `Put(u')` with the id of `u`, the collection holds
exactly one document with that id, every field of which is that of `u'` as encoded; `Get`
of the id returns `u'` with `RegisteredAt` passed through the BSON date (milliseconds,
`int64`), which is `u'` itself when `u'.RegisteredAt` is a whole number of milliseconds
that fits the BSON date; `List("", 0)` returns that id once; and the documents with other
ids are as before. -/
theorem Put_overwrites (docs : List userDocument) (u u' : User)
    (hid : u'.UserID = u.UserID) (hwf : WellFormed docs) :
    (mongoUserRepository.Put none (mongoUserRepository.Put none docs u).1 u').1.filter
        (fun d => decide (d.UserID = u.UserID)) = [encodeUser u'] ∧
      mongoUserRepository.Get none
          (mongoUserRepository.Put none (mongoUserRepository.Put none docs u).1 u').1 u.UserID
        = (some { u' with
                  RegisteredAt := DateTimeTime (NewDateTimeFromTime u'.RegisteredAt) },
           none) ∧
      (mongoUserRepository.List none
          (mongoUserRepository.Put none (mongoUserRepository.Put none docs u).1 u').1
          "" 0).1.filter (fun x => decide (x.UserID = u.UserID))
        = [{ u' with RegisteredAt := DateTimeTime (NewDateTimeFromTime u'.RegisteredAt) }] ∧
      (mongoUserRepository.Put none (mongoUserRepository.Put none docs u).1 u').1.filter
          (fun d => decide (d.UserID ≠ u.UserID))
        = docs.filter (fun d => decide (d.UserID ≠ u.UserID)) ∧
      (u'.RegisteredAt % 1000000 = 0 → -2 ^ 63 ≤ u'.RegisteredAt / 1000000 →
        u'.RegisteredAt / 1000000 < 2 ^ 63 →
        mongoUserRepository.Get none
            (mongoUserRepository.Put none (mongoUserRepository.Put none docs u).1 u').1
            u.UserID
          = (some u', none)) := by
  have hget := Get_after_Put (mongoUserRepository.Put none docs u).1 u'
  rw [hid] at hget
  have hwf1 : WellFormed (mongoUserRepository.Put none docs u).1 :=
    wellFormed_invariant.2.1 none docs u hwf
  have heq := upsert_filter_eq (mongoUserRepository.Put none docs u).1 (encodeUser u') hwf1
  have hne2 := upsert_filter_ne (mongoUserRepository.Put none docs u).1 (encodeUser u')
  have hne1 := upsert_filter_ne docs (encodeUser u)
  have hid' : (encodeUser u').UserID = u.UserID := hid
  have hid1 : (encodeUser u).UserID = u.UserID := rfl
  rw [hid'] at heq hne2
  rw [hid1] at hne1
  have hp2 : (mongoUserRepository.Put none (mongoUserRepository.Put none docs u).1 u').1
      = (UpdateOne none (mongoUserRepository.Put none docs u).1 (Filter.idEq u.UserID)
          (encodeUser u')).1 := by
    rw [Put_none (mongoUserRepository.Put none docs u).1 u', hid]
  have hp1 : (mongoUserRepository.Put none docs u).1
      = (UpdateOne none docs (Filter.idEq u.UserID) (encodeUser u)).1 := by
    rw [Put_none docs u]
  refine ⟨?_, ?_, ?_, ?_, ?_⟩
  · rw [hp2]; exact heq
  · rw [hget, decode_encode]
  · rw [List_unlimited _ "" 0 le_rfl, hp2]
    exact page_filter_singleton _ u.UserID (encodeUser u') heq
  · rw [hp2, hne2]
    conv_lhs => rw [hp1]
    exact hne1
  · intro hms hlo hhi
    rw [hget, decode_encode_of_whole_ms u' hms hlo hhi]

/-- Witness of C6: "U1" is put twice into an empty collection, the second time renamed. -/
theorem Put_overwrites_witness :
    mongoUserRepository.Get none
        (mongoUserRepository.Put none
          (mongoUserRepository.Put none [] (User.mk "U1" "A" "normal" 5000000)).1
          (User.mk "U1" "B" "normal" 5000000)).1 "U1"
      = (some (User.mk "U1" "B" "normal" 5000000), none) :=
  (Put_overwrites [] (User.mk "U1" "A" "normal" 5000000) (User.mk "U1" "B" "normal" 5000000)
    rfl List.nodup_nil).2.2.2.2 (by decide) (by decide) (by decide)

/-- Counterexample to C6 as stated: "U1", registered 1 ns after the epoch, is put into an
empty collection and put again renamed; `Get` then returns a user whose `RegisteredAt`
is 0, which is not the user of the second `Put`. -/
theorem Put_overwrites_counterexample :
    mongoUserRepository.Get none
        (mongoUserRepository.Put none
          (mongoUserRepository.Put none [] (User.mk "U1" "A" "normal" 1)).1
          (User.mk "U1" "B" "normal" 1)).1 "U1"
      = (some (User.mk "U1" "B" "normal" 0), none) ∧
      User.mk "U1" "B" "normal" 0 ≠ User.mk "U1" "B" "normal" 1 := by
  decide

/-! ## The scan over the pages -/

theorem sortByID_strict (docs : List userDocument) (hwf : WellFormed docs) :
    (sortByID docs).Pairwise (fun a b => a.UserID < b.UserID) := by
  have hs : (sortByID docs).Pairwise (fun a b => a.UserID ≤ b.UserID) := sortByID_sorted docs
  have hn : ((sortByID docs).map userDocument.UserID).Nodup :=
    ((sortByID_perm docs).map userDocument.UserID).nodup_iff.mpr hwf
  have hn' : (sortByID docs).Pairwise (fun a b => a.UserID ≠ b.UserID) :=
    List.pairwise_map.mp hn
  exact (hs.and hn').imp (fun h => lt_of_le_of_ne h.1 h.2)

theorem wellFormed_filter (docs : List userDocument) (q : userDocument → Bool)
    (hwf : WellFormed docs) : WellFormed (docs.filter q) :=
  List.Nodup.sublist ((List.filter_sublist docs).map userDocument.UserID) hwf

theorem sortByID_filter (docs : List userDocument) (q : userDocument → Bool)
    (hwf : WellFormed docs) :
    sortByID (docs.filter q) = (sortByID docs).filter q := by
  have hperm : (sortByID (docs.filter q)).Perm ((sortByID docs).filter q) :=
    (sortByID_perm _).trans ((sortByID_perm docs).filter q).symm
  have h1 := sortByID_strict (docs.filter q) (wellFormed_filter docs q hwf)
  have h2 : ((sortByID docs).filter q).Pairwise (fun a b => a.UserID < b.UserID) :=
    (sortByID_strict docs hwf).sublist (List.filter_sublist _)
  exact @List.eq_of_perm_of_sorted userDocument (fun a b => a.UserID < b.UserID)
    ⟨fun _ _ hab hba => absurd hab (not_lt_of_gt hba)⟩ _ _ hperm h1 h2

theorem filter_after_last (l1 l2 : List userDocument) (x : userDocument)
    (h : (l1 ++ x :: l2).Pairwise (fun a b => a.UserID < b.UserID)) :
    (l1 ++ x :: l2).filter (fun d => decide (x.UserID < d.UserID)) = l2 := by
  rw [List.pairwise_append] at h
  obtain ⟨_, hx, hcross⟩ := h
  rw [List.pairwise_cons] at hx
  have h1 : l1.filter (fun d => decide (x.UserID < d.UserID)) = [] := by
    rw [List.filter_eq_nil_iff]
    intro a ha hlt
    have hax := hcross a ha x (List.mem_cons_self x l2)
    exact absurd (of_decide_eq_true hlt) (not_lt_of_gt hax)
  have h2 : l2.filter (fun d => decide (x.UserID < d.UserID)) = l2 := by
    rw [List.filter_eq_self]
    intro b hb
    exact decide_eq_true (hx.1 b hb)
  rw [List.filter_append, h1, List.filter_cons, h2]
  simp

theorem remaining_empty_key (docs : List userDocument) : remaining docs "" = sortByID docs := by
  simp [remaining]

theorem remaining_after (docs : List userDocument) (k : String) (hk : k ≠ "")
    (hwf : WellFormed docs) :
    remaining docs k = (sortByID docs).filter (fun d => decide (k < d.UserID)) := by
  rw [← sortByID_filter docs _ hwf]
  simp [remaining, hk]

theorem scanPages_from (docs : List userDocument) (p : Int) (hpos : 0 < p)
    (hint : p < MaxInt) (hwf : WellFormed docs) (hne : ∀ d ∈ docs, d.UserID ≠ "") :
    ∀ (n : Nat) (pre post : List userDocument) (k : String) (acc : List User) (fuel : Nat),
      post.length ≤ n → n < fuel → sortByID docs = pre ++ post → remaining docs k = post →
      scanPages docs p fuel k acc = some (acc ++ post.map decodeUser, none) := by
  intro n
  induction n with
  | zero =>
    intro pre post k acc fuel hlen hfuel _ hrem
    obtain ⟨fuel, rfl⟩ : ∃ f, fuel = f + 1 := ⟨fuel - 1, by omega⟩
    have hpost : post = [] := List.length_eq_zero.mp (by omega)
    subst hpost
    simp [scanPages, List_limited docs k p hpos hint, hrem]
  | succ n ih =>
    intro pre post k acc fuel hlen hfuel hsort hrem
    obtain ⟨fuel, rfl⟩ : ∃ f, fuel = f + 1 := ⟨fuel - 1, by omega⟩
    by_cases hfew : post.length ≤ p.toNat
    · simp [scanPages, List_limited docs k p hpos hint, hrem, hfew,
        List.take_of_length_le hfew]
    · have htake : post.take p.toNat ≠ [] := by
        intro h
        rw [List.take_eq_nil_iff] at h
        rcases h with h | h
        · omega
        · rw [h] at hfew
          simp at hfew
      have hlast : lastKeyOf (post.take p.toNat) ""
          = ((post.take p.toNat).getLast htake).UserID := by
        simp only [lastKeyOf, List.getLast?_eq_getLast _ htake]
      have hmem : (post.take p.toNat).getLast htake ∈ docs := by
        have h1 : (post.take p.toNat).getLast htake ∈ post :=
          List.mem_of_mem_take (List.getLast_mem htake)
        have h2 : (post.take p.toNat).getLast htake ∈ sortByID docs := by
          rw [hsort]
          exact List.mem_append_right _ h1
        exact (sortByID_perm docs).mem_iff.mp h2
      have hkey := hne _ hmem
      have hsplit : sortByID docs
          = (pre ++ (post.take p.toNat).dropLast)
            ++ (post.take p.toNat).getLast htake :: post.drop p.toNat := by
        rw [hsort, List.append_assoc]
        congr 1
        rw [← List.singleton_append, ← List.append_assoc,
          List.dropLast_append_getLast htake, List.take_append_drop]
      have hnext : remaining docs ((post.take p.toNat).getLast htake).UserID
          = post.drop p.toNat := by
        rw [remaining_after docs _ hkey hwf]
        have hstrict := sortByID_strict docs hwf
        rw [hsplit] at hstrict ⊢
        exact filter_after_last _ _ _ hstrict
      have hstep := ih (pre ++ post.take p.toNat) (post.drop p.toNat)
        ((post.take p.toNat).getLast htake).UserID
        (acc ++ (post.take p.toNat).map decodeUser) fuel
        (by rw [List.length_drop]; omega) (by omega)
        (by rw [hsort, List.append_assoc, List.take_append_drop]) hnext
      simp only [scanPages, List_limited docs k p hpos hint, hrem, hfew, if_false, hlast,
        hkey, hstep]
      rw [List.append_assoc, ← List.map_append, List.take_append_drop]

/-- C1, as the code has it: for a collection whose ids are pairwise distinct and none of
them empty, and a positive page size `p` below `math.MaxInt64`, the scan that starts from
the empty key and feeds each returned `lastEvaluatedKey` back until it is empty stops
within `docs.length + 1` calls, and the pages put together are the stored users in
ascending order of id: every stored user exactly once. -/
theorem scanPages_complete (docs : List userDocument) (p : Int) (hpos : 0 < p)
    (hint : p < MaxInt) (hwf : WellFormed docs) (hne : ∀ d ∈ docs, d.UserID ≠ "") :
    (∀ extra : Nat, scanPages docs p (docs.length + 1 + extra) "" []
        = some ((sortByID docs).map decodeUser, none)) ∧
      ((sortByID docs).map decodeUser).Perm (docs.map decodeUser) ∧
      (((sortByID docs).map decodeUser).map User.UserID).Nodup := by
  refine ⟨?_, (sortByID_perm docs).map decodeUser, ?_⟩
  · intro extra
    have h := scanPages_from docs p hpos hint hwf hne docs.length [] (sortByID docs) "" []
      (docs.length + 1 + extra) (by rw [(sortByID_perm docs).length_eq]) (by omega) rfl
      (remaining_empty_key docs)
    simpa using h
  · have hids : ((sortByID docs).map decodeUser).map User.UserID
        = (sortByID docs).map userDocument.UserID := by
      rw [List.map_map]
      rfl
    rw [hids]
    exact ((sortByID_perm docs).map userDocument.UserID).nodup_iff.mpr hwf

/-- Witness of C1: two users, "U2" stored before "U1", scanned with pages of one user. -/
theorem scanPages_complete_witness :
    scanPages [userDocument.mk "U2" "b" "normal" 0, userDocument.mk "U1" "a" "normal" 0] 1 3
        "" []
      = some ([User.mk "U1" "a" "normal" 0, User.mk "U2" "b" "normal" 0], none) := by
  have hle : ¬ ("U2" : String) ≤ "U1" := by
    rw [not_le, String.lt_iff_toList_lt]
    decide
  have h := (scanPages_complete
    [userDocument.mk "U2" "b" "normal" 0, userDocument.mk "U1" "a" "normal" 0] 1
    (by decide) (by decide) (by simp [WellFormed]) (by decide)).1 0
  simpa [sortByID, List.insertionSort, List.orderedInsert, hle, decodeUser, DateTimeTime]
    using h

/-- Counterexample to C1 as stated: two users with distinct ids, one of them the empty
string, scanned with pages of one user. The first call returns the user with the empty id
and, as `lastEvaluatedKey`, that id: the scan stops there, whatever the number of calls
allowed, and the user "U1" is in no page. -/
theorem scanPages_complete_counterexample :
    WellFormed [userDocument.mk "" "a" "normal" 0, userDocument.mk "U1" "b" "normal" 0] ∧
      (∀ fuel : Nat,
        scanPages [userDocument.mk "" "a" "normal" 0, userDocument.mk "U1" "b" "normal" 0] 1
            (fuel + 1) "" []
          = some ([User.mk "" "a" "normal" 0], none)) ∧
      User.mk "U1" "b" "normal" 0 ∈
        [userDocument.mk "" "a" "normal" 0, userDocument.mk "U1" "b" "normal" 0].map
          decodeUser ∧
      User.mk "U1" "b" "normal" 0 ∉ [User.mk "" "a" "normal" 0] := by
  have hle : ("" : String) ≤ "U1" := by
    rw [← not_lt, String.lt_iff_toList_lt]
    decide
  have hrem : remaining [userDocument.mk "" "a" "normal" 0, userDocument.mk "U1" "b" "normal" 0]
      "" = [userDocument.mk "" "a" "normal" 0, userDocument.mk "U1" "b" "normal" 0] := by
    simp [remaining, sortByID, List.insertionSort, List.orderedInsert, hle]
  refine ⟨by simp [WellFormed], ?_, by decide, by decide⟩
  intro fuel
  simp [scanPages, List_limited _ "" 1 (by decide) (by decide), hrem, lastKeyOf, decodeUser,
    DateTimeTime]

/-! ## Freeze, Unfreeze and the identity of a user -/

/-- C11: for every user, whatever its status, `IsFrozen` is true after `Freeze` and false
after `Unfreeze`, and `IsFrozen` holds exactly when `Status` is `frozen`. -/
theorem IsFrozen_after_Freeze_Unfreeze (user : User) :
    user.Freeze.IsFrozen = true ∧ user.Unfreeze.IsFrozen = false ∧
      (user.IsFrozen = true ↔ user.Status = UserStatusFrozen) := by
  refine ⟨?_, ?_, ?_⟩
  · simp [User.Freeze, User.IsFrozen]
  · simp only [User.Unfreeze, User.IsFrozen]
    decide
  · simp [User.IsFrozen]

/-- What holds of the idempotence of `Freeze` and `Unfreeze`: `Freeze` applied twice gives
the user `Freeze` applied once gives, likewise for `Unfreeze`; `Freeze` leaves an already
frozen user unchanged, and `Unfreeze` leaves a user whose status is `normal` unchanged. -/
theorem Freeze_Unfreeze_idempotent (user : User) :
    user.Freeze.Freeze = user.Freeze ∧ user.Unfreeze.Unfreeze = user.Unfreeze ∧
      (user.IsFrozen = true → user.Freeze = user) ∧
      (user.Status = UserStatusNormal → user.Unfreeze = user) := by
  refine ⟨rfl, rfl, ?_, ?_⟩
  · intro h
    have hs : user.Status = UserStatusFrozen := by simpa [User.IsFrozen] using h
    cases user
    simp only [User.Freeze] at hs ⊢
    rw [hs]
  · intro hs
    cases user
    simp only [User.Unfreeze] at hs ⊢
    rw [hs]

/-- A frozen user is frozen again, and a normal user is unfrozen: neither changes. -/
theorem Freeze_Unfreeze_idempotent_witness :
    (User.mk "U1" "a" UserStatusFrozen 0).Freeze = User.mk "U1" "a" UserStatusFrozen 0 ∧
      (User.mk "U1" "a" UserStatusNormal 0).Unfreeze = User.mk "U1" "a" UserStatusNormal 0 :=
  ⟨(Freeze_Unfreeze_idempotent (User.mk "U1" "a" UserStatusFrozen 0)).2.2.1 (by decide),
   (Freeze_Unfreeze_idempotent (User.mk "U1" "a" UserStatusNormal 0)).2.2.2 rfl⟩

/-- C12, the code at the failing input `User{UserID: "U1", Name: "a", Status: ""}`: the
user is not frozen, and `Unfreeze` does not leave it unchanged as its doc comment and the
claim have it: the status becomes `normal`. -/
theorem Unfreeze_changes_unfrozen_user :
    (User.mk "U1" "a" "" 0).IsFrozen = false ∧
      (User.mk "U1" "a" "" 0).Unfreeze = User.mk "U1" "a" "normal" 0 ∧
      (User.mk "U1" "a" "" 0).Unfreeze ≠ User.mk "U1" "a" "" 0 := by
  decide

theorem Mutator_run_identity (m : Mutator) (user : User) :
    (m.run user).UserID = user.UserID ∧ (m.run user).RegisteredAt = user.RegisteredAt := by
  cases m with
  | Freeze => exact ⟨rfl, rfl⟩
  | Unfreeze => exact ⟨rfl, rfl⟩
  | ChangeName name =>
    simp only [Mutator.run, User.ChangeName]
    split <;> exact ⟨rfl, rfl⟩

/-- C13: for every user and every sequence of `Freeze`, `Unfreeze` and `ChangeName` calls
(any names, failing or not), `UserID` and `RegisteredAt` after the sequence are those
before it; and neither `Freeze` nor `Unfreeze` changes `Name`. -/
theorem identity_immutable (ms : List Mutator) (user : User) :
    (runMutators ms user).UserID = user.UserID ∧
      (runMutators ms user).RegisteredAt = user.RegisteredAt ∧
      user.Freeze.Name = user.Name ∧ user.Unfreeze.Name = user.Name := by
  refine ⟨?_, ?_, rfl, rfl⟩
  · induction ms generalizing user with
    | nil => rfl
    | cons m ms ih =>
      simp only [runMutators, List.foldl_cons] at ih ⊢
      rw [ih (m.run user), (Mutator_run_identity m user).1]
  · induction ms generalizing user with
    | nil => rfl
    | cons m ms ih =>
      simp only [runMutators, List.foldl_cons] at ih ⊢
      rw [ih (m.run user), (Mutator_run_identity m user).2]

/-! ## The use case `GetUser` -/

theorem string_eq_empty_iff (s : String) : s = "" ↔ s.length = 0 := by
  cases s with
  | mk data =>
    constructor
    · intro h
      rw [h]
      rfl
    · intro h
      have hd : data = [] := List.length_eq_zero.mp h
      rw [hd]

theorem Validate_required_runeLength (s : String) (m1 m2 : String) :
    validation.Validate s [validation.Required m1, validation.RuneLength 1 100 m2] = none
      ↔ 1 ≤ s.length ∧ s.length ≤ 100 := by
  by_cases hs : s = ""
  · have h0 := (string_eq_empty_iff s).mp hs
    simp [validation.Validate, validation.Required, hs]
  · have h0 : s.length ≠ 0 := fun h => hs ((string_eq_empty_iff s).mpr h)
    simp only [validation.Validate, validation.Required, validation.RuneLength, beq_iff_eq,
      hs, if_false, Bool.false_eq_true]
    by_cases hlen : s.length ≤ 100
    · have h1 : ¬ s.length < 1 := by omega
      have h2 : ¬ s.length > 100 := by omega
      simp [h1, h2, hlen]
      omega
    · have h2 : s.length > 100 := by omega
      simp [h2, hlen, hs]

theorem request_validate_none_iff (userID : String) :
    GetUserRequest.validate { UserID := userID } = none
      ↔ 1 ≤ userID.length ∧ userID.length ≤ 100 := by
  rw [← Validate_required_runeLength userID "ユーザー ID は必須です"
    "ユーザー ID は 1 文字以上 100 文字以下です"]
  unfold GetUserRequest.validate validation.ValidateStruct
  cases validation.Validate userID
      [validation.Required "ユーザー ID は必須です",
       validation.RuneLength 1 100 "ユーザー ID は 1 文字以上 100 文字以下です"] <;> simp

theorem response_validate_ok (response : GetUserResponse)
    (hname : 1 ≤ response.Name.length ∧ response.Name.length ≤ 100)
    (hstatus : response.Status = "normal" ∨ response.Status = "frozen")
    (hzero : time.IsZero response.RegisteredAt = false) :
    response.validate = none := by
  have h1 := (Validate_required_runeLength response.Name "名前は必須です"
    "名前は 1 文字以上 100 文字以下です").mpr hname
  have h2 : validation.Validate response.Status
      [validation.Required "ステータスは必須です",
       validation.In ["normal", "frozen"] "ステータスは normal か frozen です"] = none := by
    rcases hstatus with h | h <;> rw [h] <;> decide
  have h3 : validation.Validate response.RegisteredAt
      [validation.RequiredTime "登録日時は必須です"] = none := by
    simp [validation.Validate, validation.RequiredTime, hzero]
  simp only [GetUserResponse.validate, validation.ValidateStruct, h1, h2, h3]
  rfl

theorem response_validate_empty_name (response : GetUserResponse) (hname : response.Name = "") :
    ∃ errs, response.validate = some errs := by
  have h1 : validation.Validate response.Name
      [validation.Required "名前は必須です",
       validation.RuneLength 1 100 "名前は 1 文字以上 100 文字以下です"]
      = some "名前は必須です" := by
    simp [validation.Validate, validation.Required, hname]
  simp only [GetUserResponse.validate, validation.ValidateStruct, h1, List.filterMap_cons,
    Option.map_some']
  exact ⟨_, rfl⟩

/-- C14, as the code has it: for a valid userID and a user the repository's `Get` returns
for it, `GetUser` succeeds with HTTP status 200 and a body carrying that user's name,
status and registeredAt when the name has 1 to 100 characters, the status is "normal" or
"frozen", and registeredAt is not the zero time and has a year JSON can carry (0 to 9999);
for a user whose name is the empty string `GetUser` fails with HTTP status 500 and error
code "InternalServerError". -/
theorem GetUser_ok (c : Context) (userID : String)
    (userRepository : String → Option User × Option Error) (user : User)
    (hbind : c.Bind = Except.ok { UserID := userID })
    (hid : 1 ≤ userID.length ∧ userID.length ≤ 100)
    (hget : userRepository userID = (some user, none)) :
    (1 ≤ user.Name.length ∧ user.Name.length ≤ 100 →
      user.Status = "normal" ∨ user.Status = "frozen" →
      time.IsZero user.RegisteredAt = false → time.marshals user.RegisteredAt = true →
      GetUser c userRepository
        = (Result.written 200
            { Name := user.Name, Status := user.Status, RegisteredAt := user.RegisteredAt },
           [userID])) ∧
    (user.Name = "" →
      ∃ e, GetUser c userRepository = (Result.httpError e, [userID]) ∧ e.Code = 500 ∧
        e.Message.Code = "InternalServerError") := by
  have hreq := (request_validate_none_iff userID).mpr hid
  constructor
  · intro hname hstatus hzero hjson
    have hresp := response_validate_ok
      { Name := user.Name, Status := user.Status, RegisteredAt := user.RegisteredAt }
      hname hstatus hzero
    simp only [GetUser, GetUserOn, MockUserRepository, List.nil_append, hbind, hreq, hget, hresp, Context.JSON, hjson, if_true]
  · intro hname
    obtain ⟨errs, herrs⟩ := response_validate_empty_name
      { Name := user.Name, Status := user.Status, RegisteredAt := user.RegisteredAt } hname
    simp only [GetUser, GetUserOn, MockUserRepository, List.nil_append, hbind, hreq, hget, herrs]
    exact ⟨_, rfl, rfl, rfl⟩

/-- Witness of C14: the repository returns the frozen user "U2" of name "user2". -/
theorem GetUser_ok_witness :
    GetUser { Bind := Except.ok { UserID := "U2" } }
        (fun _ => (some (User.mk "U2" "user2" "frozen" 946684800000000000), none))
      = (Result.written 200
          { Name := "user2", Status := "frozen", RegisteredAt := 946684800000000000 },
         ["U2"]) :=
  (GetUser_ok { Bind := Except.ok { UserID := "U2" } } "U2"
    (fun _ => (some (User.mk "U2" "user2" "frozen" 946684800000000000), none))
    (User.mk "U2" "user2" "frozen" 946684800000000000) rfl (by decide) rfl).1
    (by decide) (by decide) (by decide) (by decide)

/-- Counterexample to C14 as stated: the repository returns a normal user registered at
the Unix epoch whose name is the empty string; `GetUser` fails with HTTP status 500 and
error code "InternalServerError", the response having failed its validation. -/
theorem GetUser_ok_counterexample :
    GetUser { Bind := Except.ok { UserID := "U1" } }
        (fun _ => (some (User.mk "U1" "" "normal" 0), none))
      = (Result.httpError
          { Code := 500,
            Message :=
              { Message := "レスポンスのバリデーションに失敗しました",
                Code := "InternalServerError",
                Err := Cause.response { Name := "", Status := "normal", RegisteredAt := 0 }
                  [("name", "名前は必須です")] } },
         ["U1"]) := by
  decide

/-- C15: for a valid userID, when the repository's `Get` fails with an error that is or
wraps `ErrUserNotFound`, `GetUser` fails with HTTP status 400 and error code
"UserNotFound"; when it fails with any other error, `GetUser` fails with HTTP status 500
and error code "InternalServerError"; in both cases the `ErrorResponse` unwraps to the
error of the repository. -/
theorem GetUser_repository_error (c : Context) (userID : String)
    (userRepository : String → Option User × Option Error) (user : Option User)
    (err : Error)
    (hbind : c.Bind = Except.ok { UserID := userID })
    (hid : 1 ≤ userID.length ∧ userID.length ≤ 100)
    (hget : userRepository userID = (user, some err)) :
    (errorsIs err Error.ErrUserNotFound = true →
      ∃ e, (GetUser c userRepository).1 = Result.httpError e ∧ e.Code = 400 ∧
        e.Message.Code = "UserNotFound" ∧ e.Message.Unwrap = Cause.repository err) ∧
    (errorsIs err Error.ErrUserNotFound = false →
      ∃ e, (GetUser c userRepository).1 = Result.httpError e ∧ e.Code = 500 ∧
        e.Message.Code = "InternalServerError" ∧
        e.Message.Unwrap = Cause.repository err) := by
  have hreq := (request_validate_none_iff userID).mpr hid
  constructor
  · intro his
    simp only [GetUser, GetUserOn, MockUserRepository, List.nil_append, hbind, hreq, hget, his, if_true]
    exact ⟨_, rfl, rfl, rfl, rfl⟩
  · intro his
    simp only [GetUser, GetUserOn, MockUserRepository, List.nil_append, hbind, hreq, hget, his, if_false, Bool.false_eq_true]
    exact ⟨_, rfl, rfl, rfl, rfl⟩

/-- Witness of C15: the repository answers "U1" with `ErrUserNotFound` wrapped once, and
with a driver failure. -/
theorem GetUser_repository_error_witness :
    (∃ e, (GetUser { Bind := Except.ok { UserID := "U1" } }
            (fun _ => (none, some (Error.wrapf "get" Error.ErrUserNotFound)))).1
          = Result.httpError e ∧ e.Code = 400 ∧ e.Message.Code = "UserNotFound" ∧
        e.Message.Unwrap = Cause.repository (Error.wrapf "get" Error.ErrUserNotFound)) ∧
    (∃ e, (GetUser { Bind := Except.ok { UserID := "U1" } }
            (fun _ => (none, some (Error.driver (MongoError.other "timeout"))))).1
          = Result.httpError e ∧ e.Code = 500 ∧ e.Message.Code = "InternalServerError" ∧
        e.Message.Unwrap = Cause.repository (Error.driver (MongoError.other "timeout"))) :=
  ⟨(GetUser_repository_error { Bind := Except.ok { UserID := "U1" } } "U1"
      (fun _ => (none, some (Error.wrapf "get" Error.ErrUserNotFound))) none
      (Error.wrapf "get" Error.ErrUserNotFound) rfl (by decide) rfl).1 (by decide),
   (GetUser_repository_error { Bind := Except.ok { UserID := "U1" } } "U1"
      (fun _ => (none, some (Error.driver (MongoError.other "timeout")))) none
      (Error.driver (MongoError.other "timeout")) rfl (by decide) rfl).2 (by decide)⟩

theorem GetUserOn_state_refused {σ : Type} (c : Context) (userRepository : UserRepository σ)
    (s : σ) (userID : String) (hbind : c.Bind = Except.ok { UserID := userID })
    (errs : validation.Errors)
    (hreq : GetUserRequest.validate { UserID := userID } = some errs) :
    GetUserOn c userRepository s
      = (Result.httpError
          (badRequest c ("リクエストが不正です: " ++ validation.ErrorsString errs)
            (Cause.validation errs)), s) := by
  simp only [GetUserOn, hbind, hreq]

theorem GetUserOn_state_called {σ : Type} (c : Context) (userRepository : UserRepository σ)
    (s : σ) (userID : String) (hbind : c.Bind = Except.ok { UserID := userID })
    (hreq : GetUserRequest.validate { UserID := userID } = none) :
    (GetUserOn c userRepository s).2 = (userRepository.Get s userID).2 := by
  simp only [GetUserOn, hbind, hreq]
  generalize userRepository.Get s userID = r
  obtain ⟨⟨user, err⟩, s'⟩ := r
  cases err with
  | some err =>
    simp only []
    split <;> rfl
  | none =>
    cases user with
    | none => rfl
    | some user =>
      simp only []
      split <;> rfl

/-- C16: the validation of the request accepts a userID exactly when it has 1 to 100
characters. For an empty userID or one of more than 100 characters `GetUser` fails with
HTTP status 400 and error code "BadRequest" and the repository is not called: the mock has
recorded no call, and any repository is left in the state it was in. For a userID of 1 to
100 characters the repository's `Get` is called with that userID: the mock has recorded
that one call, and any repository is left in the state its `Get` of that userID leaves. -/
theorem GetUser_request_validation (c : Context) (userID : String)
    (userRepository : String → Option User × Option Error)
    (hbind : c.Bind = Except.ok { UserID := userID }) :
    (GetUserRequest.validate { UserID := userID } = none
        ↔ 1 ≤ userID.length ∧ userID.length ≤ 100) ∧
    (userID.length = 0 ∨ 100 < userID.length →
      (∃ e, GetUser c userRepository = (Result.httpError e, []) ∧ e.Code = 400 ∧
        e.Message.Code = "BadRequest") ∧
      ∀ (σ : Type) (repository : UserRepository σ) (s : σ),
        (GetUserOn c repository s).2 = s) ∧
    (1 ≤ userID.length ∧ userID.length ≤ 100 →
      (GetUser c userRepository).2 = [userID] ∧
      ∀ (σ : Type) (repository : UserRepository σ) (s : σ),
        (GetUserOn c repository s).2 = (repository.Get s userID).2) := by
  refine ⟨request_validate_none_iff userID, ?_, ?_⟩
  · intro hbad
    have hne : GetUserRequest.validate { UserID := userID } ≠ none := by
      intro h
      have := (request_validate_none_iff userID).mp h
      omega
    obtain ⟨errs, herrs⟩ := Option.ne_none_iff_exists'.mp hne
    refine ⟨?_, ?_⟩
    · rw [GetUser, GetUserOn_state_refused c _ [] userID hbind errs herrs]
      exact ⟨_, rfl, rfl, rfl⟩
    · intro σ repository s
      rw [GetUserOn_state_refused c repository s userID hbind errs herrs]
  · intro hid
    have hreq := (request_validate_none_iff userID).mpr hid
    refine ⟨?_, ?_⟩
    · rw [GetUser, GetUserOn_state_called c _ [] userID hbind hreq]
      rfl
    · intro σ repository s
      exact GetUserOn_state_called c repository s userID hbind hreq

/-- Witness of C16: the empty userID and a userID of 101 characters are refused before
the repository is called, and the userID "U1" reaches the repository. -/
theorem GetUser_request_validation_witness :
    (∃ e, GetUser { Bind := Except.ok { UserID := "" } } (fun _ => (none, none))
          = (Result.httpError e, []) ∧ e.Code = 400 ∧ e.Message.Code = "BadRequest") ∧
    (∃ e, GetUser { Bind := Except.ok { UserID := String.mk (List.replicate 101 'a') } }
            (fun _ => (none, none))
          = (Result.httpError e, []) ∧ e.Code = 400 ∧ e.Message.Code = "BadRequest") ∧
    (GetUser { Bind := Except.ok { UserID := "U1" } }
        (fun _ => (none, some Error.ErrUserNotFound))).2 = ["U1"] :=
  ⟨((GetUser_request_validation { Bind := Except.ok { UserID := "" } } ""
      (fun _ => (none, none)) rfl).2.1 (by decide)).1,
   ((GetUser_request_validation
      { Bind := Except.ok { UserID := String.mk (List.replicate 101 'a') } }
      (String.mk (List.replicate 101 'a')) (fun _ => (none, none)) rfl).2.1 (by decide)).1,
   ((GetUser_request_validation { Bind := Except.ok { UserID := "U1" } } "U1"
      (fun _ => (none, some Error.ErrUserNotFound)) rfl).2.2 (by decide)).1⟩

end Theorems
